import Mathlib

/-!
# Verification of the data-workspaces snapshot/restore core

A shallow embedding of the resource abstraction and the snapshot/restore
reconciliation engine of the `dataworkspaces` package, together with proofs
about the embedded operations.

The embedding follows the Python sources:
* `dataworkspaces/commands/restore.py` (the restore reconciler),
* `dataworkspaces/backends/git.py` (the metadata store),
* `dataworkspaces/resources/git_resource.py` and
  `dataworkspaces/resources/s3/s3_resource.py` (resource variants),
* `dataworkspaces/dws.py` (the restore entry point).
Operations that live in modules outside those files (the VCS boundary
primitives, the snapshot-manifest serializer, the per-resource snapshot
action) are modelled from the specification and marked as such in their
doc comments.
-/

/-- Error variants raised by the system: `ConfigurationError`, `InternalError`
and `NotSupportedError` from `dataworkspaces/errors.py`, plus the
`click.UsageError` / `click.BadOptionUsage` exceptions of the CLI layer and
Python assertion failures. -/
inductive DwsError where
  | configurationError (msg : String)
  | internalError (msg : String)
  | notSupportedError (msg : String)
  | usageError (msg : String)
  | badOptionUsage (msg : String)
  | assertionError
deriving DecidableEq, Repr

deriving instance DecidableEq for Except

/-! ## The restore reconciler: `process_names` (commands/restore.py 89-122) -/

/-- Helper for `split_commas`: splits a character list at every comma.
An empty input yields one empty group, matching Python semantics. -/
def split_commas_aux : List Char → List (List Char)
  | [] => [[]]
  | c :: rest =>
    if c = ',' then [] :: split_commas_aux rest
    else
      match split_commas_aux rest with
      | [] => [[c]]
      | group :: groups => (c :: group) :: groups

/-- Python's `s.split(',')` as used by `process_names` on the `--only` and
`--leave` option strings (a structurally recursive equivalent of
`String.splitOn ","`). -/
def split_commas (s : String) : List String :=
  (split_commas_aux s.data).map (fun cs => String.mk cs)

/-- The validation loop `for name in only_names: if name not in all_names:
raise click.UsageError(...)` of `process_names`. -/
def validate_names (names : List String) (all_names : Finset String) :
    Except DwsError Unit :=
  match names with
  | [] => Except.ok ()
  | name :: rest =>
    if name ∈ all_names then validate_names rest all_names
    else Except.error (DwsError.usageError
      ("No resource in " ++ name ++ " exists in current or restored workspaces"))

/-- The `--leave` loop of `process_names`: each name is checked against
`all_names` (raising `click.UsageError` otherwise) and, when it is in
`names_to_restore`, moved from `names_to_restore` to `names_to_leave`. -/
def process_leave_names (leave_names : List String) (all_names : Finset String)
    (names_to_restore names_to_leave : Finset String) :
    Except DwsError (Finset String × Finset String) :=
  match leave_names with
  | [] => Except.ok (names_to_restore, names_to_leave)
  | name :: rest =>
    if name ∉ all_names then
      Except.error (DwsError.usageError
        ("No resource in " ++ name ++ " exists in current or restored workspaces"))
    else if name ∈ names_to_restore then
      process_leave_names rest all_names
        (names_to_restore.erase name) (insert name names_to_leave)
    else
      process_leave_names rest all_names names_to_restore names_to_leave

/-- The `--only` handling of `process_names`: after validating every listed
name against `all_names`, every name of `all_names.difference(only_names)`
that is in `names_to_restore` is moved into `names_to_leave`. -/
def process_only_names (only : Option String) (all_names : Finset String)
    (names_to_restore names_to_leave : Finset String) :
    Except DwsError (Finset String × Finset String) :=
  match only with
  | none => Except.ok (names_to_restore, names_to_leave)
  | some only_str =>
    let only_names := split_commas only_str
    match validate_names only_names all_names with
    | Except.error e => Except.error e
    | Except.ok _ =>
      let moved := (all_names \ only_names.toFinset) ∩ names_to_restore
      Except.ok (names_to_restore \ moved, names_to_leave ∪ moved)

/-- `process_names` (commands/restore.py 89-122): the three-way diff between
the current resource names and the target snapshot's resource names, together
with the `--only` / `--leave` adjustments, returning
`(names_to_restore, names_to_add, names_to_leave)`.  The source returns the
three sets through `sorted(...)`, which only fixes the iteration order of the
returned names; the embedding returns the underlying finite sets. -/
def process_names (current_names snapshot_names : Finset String)
    (only leave : Option String) :
    Except DwsError (Finset String × Finset String × Finset String) :=
  let all_names := snapshot_names ∪ current_names
  let names_to_restore := snapshot_names ∩ current_names
  let names_to_add := snapshot_names \ current_names
  let names_to_leave := current_names \ snapshot_names
  match process_only_names only all_names names_to_restore names_to_leave with
  | Except.error e => Except.error e
  | Except.ok (names_to_restore, names_to_leave) =>
    match leave with
    | none => Except.ok (names_to_restore, names_to_add, names_to_leave)
    | some leave_str =>
      match process_leave_names (split_commas leave_str) all_names
              names_to_restore names_to_leave with
      | Except.error e => Except.error e
      | Except.ok (names_to_restore, names_to_leave) =>
        Except.ok (names_to_restore, names_to_add, names_to_leave)

/-- The `dws restore` entry point (dws.py 208-214): when both `--only` and
`--leave` are supplied, `click.BadOptionUsage` is raised before
`restore_command` (abstracted here as the continuation `k`) is invoked. -/
def restore_cli {α : Type} (only leave : Option String)
    (k : Option String → Option String → Except DwsError α) :
    Except DwsError α :=
  if only.isSome && leave.isSome then
    Except.error (DwsError.badOptionUsage
      "Please specify either --only or --leave, but not both")
  else k only leave

example : process_names {"A", "B"} {"A"} none none =
    Except.ok ({"A"}, ∅, {"B"}) := by decide

example : process_names {"A", "B"} {"A", "C"} none (some "A") =
    Except.ok (∅, {"C"}, {"A", "B"}) := by decide

example : process_names {"A", "B"} {"A", "C"} (some "Z") none =
    Except.error (DwsError.usageError
      "No resource in Z exists in current or restored workspaces") := by decide

/-! ## Finset helpers for the reconciliation partition -/

theorem erase_union_insert_eq {α : Type} [DecidableEq α] {s t : Finset α}
    {x : α} (hx : x ∈ s) : s.erase x ∪ insert x t = s ∪ t := by
  ext y
  by_cases hyx : y = x
  · subst hyx; simp [hx]
  · simp [Finset.mem_union, Finset.mem_erase, Finset.mem_insert, hyx]

theorem disjoint_erase_insert {α : Type} [DecidableEq α] {s t : Finset α}
    {x : α} (hd : Disjoint s t) : Disjoint (s.erase x) (insert x t) := by
  rw [Finset.disjoint_left] at hd ⊢
  intro a ha hb
  rcases Finset.mem_insert.mp hb with h1 | h1
  · exact (Finset.mem_erase.mp ha).1 h1
  · exact hd (Finset.mem_erase.mp ha).2 h1

theorem sdiff_union_union_eq {α : Type} [DecidableEq α] {r l m : Finset α}
    (hm : m ⊆ r) : (r \ m) ∪ (l ∪ m) = r ∪ l := by
  ext x
  simp only [Finset.mem_union, Finset.mem_sdiff]
  constructor
  · rintro (⟨hx, _⟩ | hx | hx)
    · exact Or.inl hx
    · exact Or.inr hx
    · exact Or.inl (hm hx)
  · rintro (hx | hx)
    · by_cases hxm : x ∈ m
      · exact Or.inr (Or.inr hxm)
      · exact Or.inl ⟨hx, hxm⟩
    · exact Or.inr (Or.inl hx)

theorem disjoint_sdiff_union {α : Type} [DecidableEq α] {r l m : Finset α}
    (hd : Disjoint r l) : Disjoint (r \ m) (l ∪ m) := by
  rw [Finset.disjoint_left] at hd ⊢
  intro a ha hb
  obtain ⟨har, ham⟩ := Finset.mem_sdiff.mp ha
  rcases Finset.mem_union.mp hb with h1 | h1
  · exact hd har h1
  · exact ham h1

/-! ## Behaviour of the `--only` / `--leave` stages -/

theorem process_only_names_ok (only : Option String) (all_names r l r' l' : Finset String)
    (h : process_only_names only all_names r l = Except.ok (r', l')) :
    r' ⊆ r ∧ r' ∪ l' = r ∪ l ∧ (Disjoint r l → Disjoint r' l') := by
  cases only with
  | none =>
    simp only [process_only_names, Except.ok.injEq, Prod.mk.injEq] at h
    obtain ⟨h1, h2⟩ := h
    subst h1; subst h2
    exact ⟨Finset.Subset.refl r, rfl, fun hd => hd⟩
  | some only_str =>
    simp only [process_only_names] at h
    cases hv : validate_names (split_commas only_str) all_names with
    | error e => rw [hv] at h; cases h
    | ok u =>
      rw [hv] at h
      simp only [Except.ok.injEq, Prod.mk.injEq] at h
      obtain ⟨h1, h2⟩ := h
      subst h1; subst h2
      have hm : (all_names \ (split_commas only_str).toFinset) ∩ r ⊆ r :=
        Finset.inter_subset_right
      exact ⟨Finset.sdiff_subset, sdiff_union_union_eq hm,
             fun hd => disjoint_sdiff_union hd⟩

theorem process_leave_names_ok (leave_names : List String) :
    ∀ (all_names r l r' l' : Finset String),
    process_leave_names leave_names all_names r l = Except.ok (r', l') →
    r' ⊆ r ∧ r' ∪ l' = r ∪ l ∧ (Disjoint r l → Disjoint r' l') := by
  induction leave_names with
  | nil =>
    intro all_names r l r' l' h
    simp only [process_leave_names, Except.ok.injEq, Prod.mk.injEq] at h
    obtain ⟨h1, h2⟩ := h
    subst h1; subst h2
    exact ⟨Finset.Subset.refl r, rfl, fun hd => hd⟩
  | cons name rest ih =>
    intro all_names r l r' l' h
    simp only [process_leave_names] at h
    by_cases h1 : name ∈ all_names
    · rw [if_neg (by simpa using h1)] at h
      by_cases h2 : name ∈ r
      · rw [if_pos h2] at h
        obtain ⟨hsub, hun, hdis⟩ := ih all_names (r.erase name) (insert name l) r' l' h
        refine ⟨hsub.trans (Finset.erase_subset name r), ?_, ?_⟩
        · rw [hun, erase_union_insert_eq h2]
        · intro hd
          exact hdis (disjoint_erase_insert hd)
      · rw [if_neg h2] at h
        exact ih all_names r l r' l' h
    · rw [if_pos (by simpa using h1)] at h
      cases h

/-- **C1**: on every successful run of `process_names`, with no options the
three sets are exactly `C ∩ S`, `S \ C` and `C \ S`; in general the three
returned sets are pairwise disjoint, their union is `C ∪ S`, `names_to_add`
is always `S \ C`, and `--only`/`--leave` only move names between
`names_to_restore` and `names_to_leave` (their union stays
`(C ∩ S) ∪ (C \ S)`). -/
theorem process_names_partition
    (C S : Finset String) (only leave : Option String)
    (r a l : Finset String)
    (h : process_names C S only leave = Except.ok (r, a, l)) :
    (r ∪ a ∪ l = C ∪ S) ∧
    Disjoint r a ∧ Disjoint r l ∧ Disjoint a l ∧
    a = S \ C ∧ r ∪ l = (C ∩ S) ∪ (C \ S) ∧
    (only = none → leave = none → r = C ∩ S ∧ l = C \ S) := by
  simp only [process_names] at h
  cases ho : process_only_names only (S ∪ C) (S ∩ C) (C \ S) with
  | error e => rw [ho] at h; cases h
  | ok p =>
    obtain ⟨r1, l1⟩ := p
    rw [ho] at h
    obtain ⟨hsub1, hun1, hdis1⟩ :=
      process_only_names_ok only (S ∪ C) (S ∩ C) (C \ S) r1 l1 ho
    have hd0 : Disjoint (S ∩ C) (C \ S) := by
      rw [Finset.disjoint_left]
      intro x hx hy
      exact (Finset.mem_sdiff.mp hy).2 (Finset.mem_inter.mp hx).1
    -- facts common to both leave branches, for arbitrary final (r₂, l₂)
    have key : ∀ r2 l2 : Finset String, r2 ⊆ r1 → r2 ∪ l2 = r1 ∪ l1 →
        (Disjoint r1 l1 → Disjoint r2 l2) →
        (r2 ∪ (S \ C) ∪ l2 = C ∪ S) ∧
        Disjoint r2 (S \ C) ∧ Disjoint r2 l2 ∧ Disjoint (S \ C) l2 ∧
        r2 ∪ l2 = (C ∩ S) ∪ (C \ S) := by
      intro r2 l2 hsub2 hun2 hdis2
      have hun : r2 ∪ l2 = (S ∩ C) ∪ (C \ S) := by rw [hun2, hun1]
      have hunC : r2 ∪ l2 = C := by
        rw [hun]
        ext x
        simp only [Finset.mem_union, Finset.mem_inter, Finset.mem_sdiff]
        constructor
        · rintro (⟨_, hx⟩ | ⟨hx, _⟩) <;> exact hx
        · intro hx
          by_cases hxs : x ∈ S
          · exact Or.inl ⟨hxs, hx⟩
          · exact Or.inr ⟨hx, hxs⟩
      have hsubC : r2 ⊆ C := by
        intro x hx
        rw [← hunC]
        exact Finset.mem_union_left l2 hx
      have hlC : l2 ⊆ C := by
        intro x hx
        rw [← hunC]
        exact Finset.mem_union_right r2 hx
      refine ⟨?_, ?_, hdis2 (hdis1 hd0), ?_, ?_⟩
      · have : r2 ∪ (S \ C) ∪ l2 = (r2 ∪ l2) ∪ (S \ C) := by
          ext x
          simp only [Finset.mem_union]
          tauto
        rw [this, hunC]
        ext x
        simp only [Finset.mem_union, Finset.mem_sdiff]
        constructor
        · rintro (hx | ⟨hx, _⟩)
          · exact Or.inl hx
          · exact Or.inr hx
        · intro hx
          by_cases hxc : x ∈ C
          · exact Or.inl hxc
          · rcases hx with hx | hx
            · exact absurd hx hxc
            · exact Or.inr ⟨hx, hxc⟩
      · rw [Finset.disjoint_left]
        intro x hx hy
        exact (Finset.mem_sdiff.mp hy).2 (hsubC hx)
      · rw [Finset.disjoint_left]
        intro x hx hy
        exact (Finset.mem_sdiff.mp hx).2 (hlC hy)
      · rw [hun, Finset.inter_comm S C]
    cases leave with
    | none =>
      simp only [Except.ok.injEq, Prod.mk.injEq] at h
      obtain ⟨h1, h2, h3⟩ := h
      subst h1; subst h2; subst h3
      obtain ⟨g1, g2, g3, g4, g5⟩ :=
        key r1 l1 (Finset.Subset.refl r1) rfl (fun hd => hd)
      refine ⟨g1, g2, g3, g4, rfl, g5, ?_⟩
      intro honly _
      subst honly
      simp only [process_only_names, Except.ok.injEq, Prod.mk.injEq] at ho
      obtain ⟨e1, e2⟩ := ho
      rw [← e1, ← e2, Finset.inter_comm S C]
      exact ⟨rfl, rfl⟩
    | some leave_str =>
      dsimp only at h
      cases hl : process_leave_names (split_commas leave_str) (S ∪ C) r1 l1 with
      | error e => rw [hl] at h; cases h
      | ok q =>
        obtain ⟨r2, l2⟩ := q
        rw [hl] at h
        simp only [Except.ok.injEq, Prod.mk.injEq] at h
        obtain ⟨h1, h2, h3⟩ := h
        subst h1; subst h2; subst h3
        obtain ⟨hsub2, hun2, hdis2⟩ :=
          process_leave_names_ok (split_commas leave_str) (S ∪ C) r1 l1 r2 l2 hl
        obtain ⟨g1, g2, g3, g4, g5⟩ := key r2 l2 hsub2 hun2 hdis2
        exact ⟨g1, g2, g3, g4, rfl, g5, fun _ hleave => by cases hleave⟩

/-- Witness for `process_names_partition` at `C = {"A","B"}`, `S = {"A"}`:
the reconciler partitions the names with union `C ∪ S`. -/
theorem process_names_partition_witness :
    ({"A"} : Finset String) ∪ (∅ : Finset String) ∪ ({"B"} : Finset String) =
      ({"A", "B"} : Finset String) ∪ ({"A"} : Finset String) :=
  (process_names_partition {"A", "B"} {"A"} none none {"A"} ∅ {"B"} (by decide)).1

/-! ## Validation errors of `process_names` (for the `--only`/`--leave` contract) -/

theorem validate_names_error_of_bad (names : List String) :
    ∀ all_names : Finset String, (∃ n ∈ names, n ∉ all_names) →
    ∃ m, validate_names names all_names = Except.error (DwsError.usageError m) := by
  induction names with
  | nil =>
    intro all_names h
    obtain ⟨n, hn, _⟩ := h
    cases hn
  | cons name rest ih =>
    intro all_names h
    by_cases h1 : name ∈ all_names
    · obtain ⟨n, hn, hbad⟩ := h
      rcases List.mem_cons.mp hn with h2 | h2
      · subst h2; exact absurd h1 hbad
      · obtain ⟨m, hm⟩ := ih all_names ⟨n, h2, hbad⟩
        exact ⟨m, by simp only [validate_names, if_pos h1]; exact hm⟩
    · exact ⟨"No resource in " ++ name ++ " exists in current or restored workspaces",
             by simp only [validate_names, if_neg h1]⟩

theorem validate_names_error_shape (names : List String) :
    ∀ (all_names : Finset String) (e : DwsError),
    validate_names names all_names = Except.error e →
    ∃ m, e = DwsError.usageError m := by
  induction names with
  | nil => intro all_names e h; cases h
  | cons name rest ih =>
    intro all_names e h
    simp only [validate_names] at h
    by_cases h1 : name ∈ all_names
    · rw [if_pos h1] at h
      exact ih all_names e h
    · rw [if_neg h1] at h
      exact ⟨_, (Except.error.injEq _ _).mp h.symm⟩

theorem process_leave_names_error_of_bad (names : List String) :
    ∀ (all_names r l : Finset String), (∃ n ∈ names, n ∉ all_names) →
    ∃ m, process_leave_names names all_names r l =
      Except.error (DwsError.usageError m) := by
  induction names with
  | nil =>
    intro all_names r l h
    obtain ⟨n, hn, _⟩ := h
    cases hn
  | cons name rest ih =>
    intro all_names r l h
    by_cases h1 : name ∈ all_names
    · obtain ⟨n, hn, hbad⟩ := h
      rcases List.mem_cons.mp hn with h2 | h2
      · subst h2; exact absurd h1 hbad
      · have h1' : ¬ (name ∉ all_names) := fun hc => hc h1
        by_cases h3 : name ∈ r
        · obtain ⟨m, hm⟩ := ih all_names (r.erase name) (insert name l) ⟨n, h2, hbad⟩
          refine ⟨m, ?_⟩
          simp only [process_leave_names]
          rw [if_neg h1', if_pos h3]
          exact hm
        · obtain ⟨m, hm⟩ := ih all_names r l ⟨n, h2, hbad⟩
          refine ⟨m, ?_⟩
          simp only [process_leave_names]
          rw [if_neg h1', if_neg h3]
          exact hm
    · refine ⟨"No resource in " ++ name ++ " exists in current or restored workspaces", ?_⟩
      simp only [process_leave_names]
      rw [if_pos h1]

/-- **C8**: naming a resource in `--only` or `--leave` that is absent from
`C ∪ S` makes `process_names` fail with a usage error, and supplying both
`--only` and `--leave` is rejected by the `dws restore` entry point before
`restore_command` (the continuation `k`, and hence any reconciliation work)
is ever invoked. -/
theorem restore_only_leave_validation :
    (∀ (α : Type) (o lv : String) (k : Option String → Option String → Except DwsError α),
        restore_cli (some o) (some lv) k = Except.error (DwsError.badOptionUsage
          "Please specify either --only or --leave, but not both")) ∧
    (∀ (C S : Finset String) (o : String) (leave : Option String) (name : String),
        name ∈ split_commas o → name ∉ C ∪ S →
        ∃ m, process_names C S (some o) leave =
          Except.error (DwsError.usageError m)) ∧
    (∀ (C S : Finset String) (only : Option String) (lv name : String),
        name ∈ split_commas lv → name ∉ C ∪ S →
        ∃ m, process_names C S only (some lv) =
          Except.error (DwsError.usageError m)) := by
  refine ⟨fun α o lv k => rfl, ?_, ?_⟩
  · intro C S o leave name hmem hbad
    have hbad' : name ∉ (S ∪ C : Finset String) := by
      intro hx
      exact hbad (by rw [Finset.union_comm]; exact hx)
    obtain ⟨m, hm⟩ := validate_names_error_of_bad (split_commas o) (S ∪ C)
      ⟨name, hmem, hbad'⟩
    refine ⟨m, ?_⟩
    simp only [process_names, process_only_names, hm]
  · intro C S only lv name hmem hbad
    have hbad' : name ∉ (S ∪ C : Finset String) := by
      intro hx
      exact hbad (by rw [Finset.union_comm]; exact hx)
    simp only [process_names]
    cases ho : process_only_names only (S ∪ C) (S ∩ C) (C \ S) with
    | error e =>
      cases only with
      | none => cases ho
      | some o =>
        simp only [process_only_names] at ho
        cases hv : validate_names (split_commas o) (S ∪ C) with
        | error e2 =>
          rw [hv] at ho
          obtain ⟨m, hm⟩ := validate_names_error_shape (split_commas o) (S ∪ C) e2 hv
          refine ⟨m, ?_⟩
          simp only [Except.error.injEq] at ho
          rw [← ho, hm]
        | ok u => rw [hv] at ho; cases ho
    | ok p =>
      obtain ⟨r1, l1⟩ := p
      dsimp only
      obtain ⟨m, hm⟩ := process_leave_names_error_of_bad (split_commas lv)
        (S ∪ C) r1 l1 ⟨name, hmem, hbad'⟩
      exact ⟨m, by rw [hm]⟩

/-- Witness for `restore_only_leave_validation`: supplying both options is
rejected, and an unknown `--only` name yields a usage error. -/
theorem restore_only_leave_validation_witness :
    (restore_cli (some "A") (some "B") (fun _ _ => Except.ok (0 : Nat)) =
      Except.error (DwsError.badOptionUsage
        "Please specify either --only or --leave, but not both")) ∧
    (∃ m, process_names {"A"} {"B"} (some "Z") none =
      Except.error (DwsError.usageError m)) :=
  ⟨restore_only_leave_validation.1 Nat "A" "B" (fun _ _ => Except.ok 0),
   restore_only_leave_validation.2.1 {"A"} {"B"} "Z" none "Z"
     (by decide) (by decide)⟩

/-! ## The metadata store (backends/git.py) -/

/-- Python's `s.lower()` (structurally recursive equivalent of
`String.toLower`). -/
def str_lower (s : String) : String := String.mk (s.data.map Char.toLower)

/-- Python's `s.startswith(p)` as a proposition on the character lists. -/
def str_startsWith (s p : String) : Prop := p.data <+: s.data

instance (s p : String) : Decidable (str_startsWith s p) :=
  inferInstanceAs (Decidable (p.data <+: s.data))

/-- Python's `s.endswith(p)` as a proposition on the character lists. -/
def str_endsWith (s p : String) : Prop := p.data <:+ s.data

instance (s p : String) : Decidable (str_endsWith s p) :=
  inferInstanceAs (Decidable (p.data <:+ s.data))

/-- A snapshot metadata record (`<hash>_md.json`):
`{hashval, tags, message, timestamp}` per the persisted JSON layout. -/
structure SnapshotMetadata where
  hashval : String
  tags : List String
  message : String
  timestamp : String
deriving DecidableEq, Repr

/-- `Workspace.remove_tag_from_snapshot` (backends/git.py 355-371).  The
metadata directory is modelled as an association list from the hash part of
the `<hash>_md.json` filename to the parsed record; writing the file back is
an update of that entry.  The source computes the new tag list with the
comprehension `[tag for tag in md.tags if tag!=tag]`, whose loop variable
shadows the `tag` parameter; the inner lambda below shadows it the same
way. -/
def remove_tag_from_snapshot (metadata_dir : List (String × SnapshotMetadata))
    (hash_val tag : String) : Except DwsError (List (String × SnapshotMetadata)) :=
  match metadata_dir.lookup (str_lower hash_val) with
  | none => Except.error (DwsError.internalError
      ("No metadata entry for snapshot " ++ hash_val))
  | some md =>
    if tag ∉ md.tags then
      Except.error (DwsError.internalError
        ("Tag " ++ tag ++ " not found in snapshot " ++ hash_val))
    else
      Except.ok (metadata_dir.map (fun kv =>
        if kv.1 = str_lower hash_val then
          (kv.1, { md with tags := md.tags.filter (fun tag => tag != tag) })
        else kv))

/-- A concrete metadata record carrying two tags. -/
def md_h1 : SnapshotMetadata :=
  { hashval := "h1", tags := ["v1", "v2"], message := "first", timestamp := "t1" }

/-- **C2** (code bug): `remove_tag_from_snapshot` is documented to remove only
the given tag, but the comprehension `[tag for tag in md.tags if tag!=tag]`
compares the loop variable with itself, so the rewritten record has *all*
tags removed: removing `"v1"` from a record tagged `["v1","v2"]` stores
`[]` instead of `["v2"]`. -/
theorem remove_tag_clears_all_tags :
    remove_tag_from_snapshot [("h1", md_h1)] "h1" "v1" =
      Except.ok [("h1", { md_h1 with tags := ([] : List String) })] ∧
    ({ md_h1 with tags := ([] : List String) } : SnapshotMetadata) ≠
      { md_h1 with tags := ["v2"] } := by
  constructor
  · decide
  · decide

/-! ## Lookup by tag (backends/git.py 267-282) -/

/-- Modelled from the spec: `SnapshotMetadata.has_tag` of
`dataworkspaces/workspace.py` — exact membership of the tag in the record's
`tags` list (not a substring match). -/
def SnapshotMetadata.has_tag (md : SnapshotMetadata) (tag : String) : Prop :=
  tag ∈ md.tags

instance (md : SnapshotMetadata) (tag : String) : Decidable (md.has_tag tag) :=
  inferInstanceAs (Decidable (tag ∈ md.tags))

/-- A lowercase hexadecimal digit, as Python's `json` module writes them. -/
def hex_digit (n : Nat) : Char :=
  if n < 10 then Char.ofNat (48 + n) else Char.ofNat (87 + n)

/-- One character of a JSON string value as `json.dump` writes it: the quote
and the backslash get a backslash escape, and control characters as well as
everything outside the printable ASCII range `0x20`-`0x7E` become a `\uXXXX`
escape (Python's default `ensure_ascii=True`; characters beyond the basic
multilingual plane, which Python writes as surrogate pairs, are modelled
within the BMP). -/
def json_escape_char (c : Char) : List Char :=
  if c = '"' then ['\\', '"']
  else if c = '\\' then ['\\', '\\']
  else if c.toNat < 32 ∨ c.toNat > 126 then
    ['\\', 'u', hex_digit (c.toNat / 4096 % 16), hex_digit (c.toNat / 256 % 16),
     hex_digit (c.toNat / 16 % 16), hex_digit (c.toNat % 16)]
  else [c]

/-- The JSON-escaped text of a string value, as `json.dump` writes it
between the enclosing quotes. -/
def json_escape (s : String) : List Char :=
  (s.data.map json_escape_char).flatten

/-- A JSON string value with its enclosing quotes. -/
def json_quote (s : String) : List Char :=
  '"' :: json_escape s ++ ['"']

/-- The `tags` array portion of the record's raw JSON text: the quoted,
escaped tags separated by `, `. -/
def tags_portion : List String → List Char
  | [] => []
  | t :: rest =>
    json_quote t ++ (if rest.isEmpty then [] else ", ".data) ++
      tags_portion rest

/-- The raw JSON text of a persisted `<hash>_md.json` file, as
`get_snapshot_by_tag` reads it back with `f.read()`: every field value
appears JSON-escaped between quotes.  The whitespace of the real
`json.dump(..., indent=2)` layout is modelled as single-line separators; no
user data lives in the separators, so only the escaped field values matter
for the raw-text search. -/
def raw_metadata_json (md : SnapshotMetadata) : List Char :=
  "\x7b\"hashval\": \"".data ++ json_escape md.hashval ++
    "\", \"tags\": [".data ++ tags_portion md.tags ++
    "], \"message\": \"".data ++ json_escape md.message ++
    "\", \"timestamp\": \"".data ++ json_escape md.timestamp ++ "\"\x7d".data

/-- The source's prefilter `regexp.search(raw_data)` with
`regexp = re.compile(re.escape(tag))` (backends/git.py 271-278): `re.escape`
makes the pattern match the tag text literally, so the search succeeds
exactly when the (unescaped) tag occurs contiguously in the raw JSON file
text. -/
def raw_file_search (md : SnapshotMetadata) (tag : String) : Prop :=
  tag.data <:+: raw_metadata_json md

instance (md : SnapshotMetadata) (tag : String) :
    Decidable (raw_file_search md tag) :=
  List.decidableInfix tag.data (raw_metadata_json md)

/-- `Workspace.get_snapshot_by_tag` (backends/git.py 267-282): a linear scan
over the persisted metadata records (in directory-listing order); a record is
returned when the raw-text prefilter matches and `has_tag` confirms exact
membership, and a `ConfigurationError` is raised when the scan is
exhausted. -/
def get_snapshot_by_tag (metadata_records : List SnapshotMetadata) (tag : String) :
    Except DwsError SnapshotMetadata :=
  match metadata_records with
  | [] => Except.error (DwsError.configurationError
      ("Snapshot for tag " ++ tag ++ " not found"))
  | md :: rest =>
    if raw_file_search md tag then
      if md.has_tag tag then Except.ok md
      else get_snapshot_by_tag rest tag
    else get_snapshot_by_tag rest tag

/-- Characters that `json.dump` writes unchanged: printable ASCII other than
the quote and the backslash. -/
def plain_json_char (c : Char) : Prop :=
  c ≠ '"' ∧ c ≠ '\\' ∧ 32 ≤ c.toNat ∧ c.toNat ≤ 126

instance (c : Char) : Decidable (plain_json_char c) := by
  unfold plain_json_char
  infer_instance

/-- A string that JSON escaping leaves unchanged. -/
def plain_json_string (s : String) : Prop := ∀ c ∈ s.data, plain_json_char c

instance (s : String) : Decidable (plain_json_string s) := by
  unfold plain_json_string
  infer_instance

theorem json_escape_char_plain (c : Char) (h : plain_json_char c) :
    json_escape_char c = [c] := by
  obtain ⟨h1, h2, h3, h4⟩ := h
  rw [json_escape_char, if_neg h1, if_neg h2, if_neg (by omega)]

theorem flatten_escape_eq_self (l : List Char)
    (h : ∀ c ∈ l, plain_json_char c) :
    (l.map json_escape_char).flatten = l := by
  induction l with
  | nil => rfl
  | cons c l ih =>
    rw [List.map_cons, List.flatten_cons,
        json_escape_char_plain c (h c (List.mem_cons_self c l)),
        ih (fun x hx => h x (List.mem_cons_of_mem c hx))]
    rfl

theorem json_escape_plain (s : String) (h : plain_json_string s) :
    json_escape s = s.data :=
  flatten_escape_eq_self s.data h

theorem mem_tags_portion_infix (l : List String) (t : String) (h : t ∈ l) :
    json_quote t <:+: tags_portion l := by
  induction l with
  | nil => cases h
  | cons t0 rest ih =>
    rcases List.mem_cons.mp h with h1 | h1
    · subst h1
      refine List.IsPrefix.isInfix
        ⟨(if rest.isEmpty then [] else ", ".data) ++ tags_portion rest, ?_⟩
      simp [tags_portion, List.append_assoc]
    · have hsuf : tags_portion rest <:+ tags_portion (t0 :: rest) := by
        refine ⟨json_quote t0 ++ (if rest.isEmpty then [] else ", ".data), ?_⟩
        simp [tags_portion, List.append_assoc]
      exact (ih h1).trans hsuf.isInfix

/-- A tag that JSON escaping leaves unchanged and that a record carries
exactly occurs verbatim in that record's raw JSON text, so the raw-text
prefilter finds it. -/
theorem has_tag_raw_search_of_plain (md : SnapshotMetadata) (tag : String)
    (hmem : tag ∈ md.tags) (hplain : plain_json_string tag) :
    raw_file_search md tag := by
  have h1 : tag.data <:+: json_quote tag := by
    rw [json_quote, json_escape_plain tag hplain]
    exact ⟨['"'], ['"'], rfl⟩
  have h2 := mem_tags_portion_infix md.tags tag hmem
  have h3 : tags_portion md.tags <:+: raw_metadata_json md := by
    refine ⟨"\x7b\"hashval\": \"".data ++ json_escape md.hashval ++
              "\", \"tags\": [".data,
            "], \"message\": \"".data ++ json_escape md.message ++
              "\", \"timestamp\": \"".data ++ json_escape md.timestamp ++
              "\"\x7d".data, ?_⟩
    simp [raw_metadata_json, List.append_assoc]
  exact (h1.trans h2).trans h3

/-- A record whose only tag contains a quote character, which `json.dump`
escapes in the stored file. -/
def md_quoted : SnapshotMetadata :=
  { hashval := "cc33", tags := ["a\"b"], message := "m", timestamp := "t5" }

set_option maxRecDepth 8000 in
/-- **C9** (counterexample): the lookup does not raise `ConfigurationError`
exactly when no record's tags contain the tag: `json.dump` stores the tag
`a"b` as `a\"b`, so the raw-text prefilter never sees the unescaped tag,
the scan skips the record, and the lookup raises `ConfigurationError`
although a record's `tags` contain the tag exactly. -/
theorem tag_lookup_misses_escaped_tag :
    "a\"b" ∈ md_quoted.tags ∧
    get_snapshot_by_tag [md_quoted] "a\"b" =
      Except.error (DwsError.configurationError
        ("Snapshot for tag " ++ "a\"b" ++ " not found")) := by
  refine ⟨by decide, by decide⟩

/-- **C9** (amended): lookup by tag only ever returns a record whose `tags`
list contains the tag as an exact member (records matching only as a
substring of another tag, or only in the message, are never returned); when
no record's tags contain the tag it raises the not-found
`ConfigurationError`; and for tags left unchanged by JSON escaping (no
quote, backslash, or character outside printable ASCII) the error is raised
exactly when no record's tags contain the tag. -/
theorem get_snapshot_by_tag_exact_amended
    (metadata_records : List SnapshotMetadata) (tag : String) :
    (∀ md, get_snapshot_by_tag metadata_records tag = Except.ok md →
       md ∈ metadata_records ∧ tag ∈ md.tags) ∧
    ((∀ md ∈ metadata_records, tag ∉ md.tags) →
       get_snapshot_by_tag metadata_records tag = Except.error
         (DwsError.configurationError
           ("Snapshot for tag " ++ tag ++ " not found"))) ∧
    (plain_json_string tag →
      (get_snapshot_by_tag metadata_records tag = Except.error
          (DwsError.configurationError
            ("Snapshot for tag " ++ tag ++ " not found"))
        ↔ ∀ md ∈ metadata_records, tag ∉ md.tags)) := by
  induction metadata_records with
  | nil =>
    refine ⟨fun md h => (by cases h), fun _ => rfl, fun _ => ?_⟩
    constructor
    · intro _ md hm; cases hm
    · intro _; rfl
  | cons md0 rest ih =>
    obtain ⟨ih1, ih2, ih3⟩ := ih
    have herr : (∀ md ∈ md0 :: rest, tag ∉ md.tags) →
        get_snapshot_by_tag (md0 :: rest) tag = Except.error
          (DwsError.configurationError
            ("Snapshot for tag " ++ tag ++ " not found")) := by
      intro hall
      have htag0 : ¬ md0.has_tag tag := hall md0 (List.mem_cons_self md0 rest)
      have hrest := ih2 (fun md hm => hall md (List.mem_cons_of_mem md0 hm))
      simp only [get_snapshot_by_tag]
      by_cases hraw : raw_file_search md0 tag
      · rw [if_pos hraw, if_neg htag0]
        exact hrest
      · rw [if_neg hraw]
        exact hrest
    refine ⟨?_, herr, ?_⟩
    · intro md h
      simp only [get_snapshot_by_tag] at h
      by_cases hraw : raw_file_search md0 tag
      · rw [if_pos hraw] at h
        by_cases htag : md0.has_tag tag
        · rw [if_pos htag] at h
          injection h with h
          subst h
          exact ⟨List.mem_cons_self md0 rest, htag⟩
        · rw [if_neg htag] at h
          obtain ⟨hmem, htag2⟩ := ih1 md h
          exact ⟨List.mem_cons_of_mem md0 hmem, htag2⟩
      · rw [if_neg hraw] at h
        obtain ⟨hmem, htag2⟩ := ih1 md h
        exact ⟨List.mem_cons_of_mem md0 hmem, htag2⟩
    · intro hplain
      refine ⟨?_, herr⟩
      intro h md hm
      simp only [get_snapshot_by_tag] at h
      by_cases hraw : raw_file_search md0 tag
      · rw [if_pos hraw] at h
        by_cases htag : md0.has_tag tag
        · rw [if_pos htag] at h; cases h
        · rw [if_neg htag] at h
          rcases List.mem_cons.mp hm with h2 | h2
          · subst h2; exact htag
          · exact ((ih3 hplain).mp h) md h2
      · rw [if_neg hraw] at h
        rcases List.mem_cons.mp hm with h2 | h2
        · subst h2
          intro hc
          exact hraw (has_tag_raw_search_of_plain md tag hc hplain)
        · exact ((ih3 hplain).mp h) md h2

/-- A concrete metadata record tagged `v1`. -/
def md_v1 : SnapshotMetadata :=
  { hashval := "aa11", tags := ["v1"], message := "msg mentions v1 too",
    timestamp := "t2" }

/-- Witness for `get_snapshot_by_tag_exact_amended`: looking `v1` up in a
store with one record tagged `v1` returns that record with exact
membership, and for the escaping-free tag `zz` the not-found error is
equivalent to no record carrying the tag. -/
theorem get_snapshot_by_tag_exact_amended_witness :
    (md_v1 ∈ [md_v1] ∧ "v1" ∈ md_v1.tags) ∧
    (get_snapshot_by_tag [md_v1] "zz" = Except.error
        (DwsError.configurationError ("Snapshot for tag " ++ "zz" ++ " not found"))
      ↔ ∀ md ∈ [md_v1], "zz" ∉ md.tags) :=
  ⟨(get_snapshot_by_tag_exact_amended [md_v1] "v1").1 md_v1 (by decide),
   (get_snapshot_by_tag_exact_amended [md_v1] "zz").2.2 (by decide)⟩

/-! ## Lookup by partial hash (backends/git.py 284-299) -/

/-- `Workspace.get_snapshot_by_partial_hash` (backends/git.py 284-299): scan
the metadata directory listing in order; the first filename of the form
`<hash>_md.json` whose hash part starts with the (lowercased) partial hash
wins, and its record (as read back by `get_snapshot_metadata`) is returned.
The listing is modelled as the ordered list of `(filename, parsed record)`
pairs delivered by `os.listdir`. -/
def get_snapshot_by_partial_hash (listing : List (String × SnapshotMetadata))
    (partHash : String) : Except DwsError SnapshotMetadata :=
  match listing with
  | [] => Except.error (DwsError.configurationError
      ("Snapshot match for partial hash " ++ partHash ++ " not found"))
  | (fname, md) :: rest =>
    if str_endsWith fname "_md.json" then
      if str_startsWith (str_lower (fname.dropRight 8)) (str_lower partHash) then
        Except.ok md
      else get_snapshot_by_partial_hash rest partHash
    else get_snapshot_by_partial_hash rest partHash

/-- The per-filename match condition of `get_snapshot_by_partial_hash`. -/
def partial_hash_matches (fname partHash : String) : Prop :=
  str_endsWith fname "_md.json" ∧
    str_startsWith (str_lower (fname.dropRight 8)) (str_lower partHash)

instance (fname partHash : String) : Decidable (partial_hash_matches fname partHash) := by
  unfold partial_hash_matches
  infer_instance

/-- Two snapshot records whose hashes share the prefix `abc`. -/
def md_abc123 : SnapshotMetadata :=
  { hashval := "abc123", tags := [], message := "", timestamp := "t3" }

/-- A second record whose hash shares the prefix `abc`. -/
def md_abc987 : SnapshotMetadata :=
  { hashval := "abc987", tags := [], message := "", timestamp := "t4" }

/-- The metadata directory listed with `abc123_md.json` first. -/
def listing_fwd : List (String × SnapshotMetadata) :=
  [("abc123_md.json", md_abc123), ("abc987_md.json", md_abc987)]

/-- The same metadata directory listed in the opposite order. -/
def listing_rev : List (String × SnapshotMetadata) :=
  [("abc987_md.json", md_abc987), ("abc123_md.json", md_abc123)]

/-- **C7** (counterexample): partial-hash lookup neither fails as ambiguous
nor picks a listing-order-independent representative: on two listings of the
*same* set of stored snapshots, the lookup of prefix `abc` returns two
different snapshots, depending only on `os.listdir` order. -/
theorem partial_hash_lookup_depends_on_listing_order :
    listing_fwd.Perm listing_rev ∧
    get_snapshot_by_partial_hash listing_fwd "abc" = Except.ok md_abc123 ∧
    get_snapshot_by_partial_hash listing_rev "abc" = Except.ok md_abc987 ∧
    md_abc123 ≠ md_abc987 := by
  refine ⟨by decide, by decide, by decide, by decide⟩

/-- **C7** (amended): for a *fixed* directory listing the lookup is
deterministic first-match: a returned record is the first listing entry
whose filename matches the partial hash, and the lookup fails — always with
the not-found `ConfigurationError`, never an ambiguity error — exactly when
no filename in the listing matches. -/
theorem get_snapshot_by_partial_hash_first_match
    (listing : List (String × SnapshotMetadata)) (partHash : String) :
    (∀ md, get_snapshot_by_partial_hash listing partHash = Except.ok md →
       ∃ pre fname post, listing = pre ++ (fname, md) :: post ∧
         partial_hash_matches fname partHash ∧
         ∀ p ∈ pre, ¬ partial_hash_matches p.1 partHash) ∧
    (get_snapshot_by_partial_hash listing partHash = Except.error
        (DwsError.configurationError
          ("Snapshot match for partial hash " ++ partHash ++ " not found"))
      ↔ ∀ p ∈ listing, ¬ partial_hash_matches p.1 partHash) := by
  induction listing with
  | nil =>
    refine ⟨fun md h => (by cases h), ?_⟩
    constructor
    · intro _ p hp; cases hp
    · intro _; rfl
  | cons hd rest ih =>
    obtain ⟨fname, md0⟩ := hd
    obtain ⟨ih1, ih2⟩ := ih
    constructor
    · intro md h
      simp only [get_snapshot_by_partial_hash] at h
      by_cases hE : str_endsWith fname "_md.json"
      · rw [if_pos hE] at h
        by_cases hS : str_startsWith (str_lower (fname.dropRight 8)) (str_lower partHash)
        · rw [if_pos hS] at h
          injection h with h
          subst h
          exact ⟨[], fname, rest, rfl, ⟨hE, hS⟩, fun p hp => by cases hp⟩
        · rw [if_neg hS] at h
          obtain ⟨pre, fn2, post, heq, hm2, hpre⟩ := ih1 md h
          refine ⟨(fname, md0) :: pre, fn2, post, by rw [heq, List.cons_append], hm2, ?_⟩
          intro p hp
          rcases List.mem_cons.mp hp with h2 | h2
          · subst h2; exact fun hc => hS hc.2
          · exact hpre p h2
      · rw [if_neg hE] at h
        obtain ⟨pre, fn2, post, heq, hm2, hpre⟩ := ih1 md h
        refine ⟨(fname, md0) :: pre, fn2, post, by rw [heq, List.cons_append], hm2, ?_⟩
        intro p hp
        rcases List.mem_cons.mp hp with h2 | h2
        · subst h2; exact fun hc => hE hc.1
        · exact hpre p h2
    · constructor
      · intro h p hp
        simp only [get_snapshot_by_partial_hash] at h
        by_cases hE : str_endsWith fname "_md.json"
        · rw [if_pos hE] at h
          by_cases hS : str_startsWith (str_lower (fname.dropRight 8)) (str_lower partHash)
          · rw [if_pos hS] at h; cases h
          · rw [if_neg hS] at h
            rcases List.mem_cons.mp hp with h2 | h2
            · subst h2; exact fun hc => hS hc.2
            · exact ih2.mp h p h2
        · rw [if_neg hE] at h
          rcases List.mem_cons.mp hp with h2 | h2
          · subst h2; exact fun hc => hE hc.1
          · exact ih2.mp h p h2
      · intro hall
        have hhd := hall (fname, md0) (List.mem_cons_self _ _)
        have hrest := ih2.mpr (fun p hp => hall p (List.mem_cons_of_mem _ hp))
        simp only [get_snapshot_by_partial_hash]
        by_cases hE : str_endsWith fname "_md.json"
        · rw [if_pos hE]
          by_cases hS : str_startsWith (str_lower (fname.dropRight 8)) (str_lower partHash)
          · exact absurd ⟨hE, hS⟩ hhd
          · rw [if_neg hS]
            exact hrest
        · rw [if_neg hE]
          exact hrest

/-- Witness for `get_snapshot_by_partial_hash_first_match`: in the listing
with `abc123_md.json` first, the returned record for prefix `abc` sits at a
position before which nothing matches. -/
theorem get_snapshot_by_partial_hash_first_match_witness :
    ∃ pre fname post, listing_fwd = pre ++ (fname, md_abc123) :: post ∧
      partial_hash_matches fname "abc" ∧
      ∀ p ∈ pre, ¬ partial_hash_matches p.1 "abc" :=
  (get_snapshot_by_partial_hash_first_match listing_fwd "abc").1 md_abc123 (by decide)

/-! ## Git repository resources (resources/git_resource.py) -/

/-- The version-control state of a git-backed resource: whether the working
tree has uncommitted changes, the branch currently checked out, the head
commit of every branch, and a counter producing fresh commit identifiers. -/
structure GitRepoState where
  dirty : Bool
  currentBranch : String
  branchHeads : List (String × Nat)
  nextCommit : Nat
deriving DecidableEq, Repr

/-- Modelled from the spec: the VCS boundary primitive `isDirty()`. -/
def is_git_dirty (s : GitRepoState) : Bool := s.dirty

/-- Modelled from the spec: the VCS boundary primitive `commit(paths,
message)` as used by `commit_changes_in_repo` — if the working tree is dirty,
commit everything, advancing the current branch to a fresh commit; otherwise
do nothing. -/
def commit_changes_in_repo (s : GitRepoState) (_message : String) : GitRepoState :=
  if s.dirty then
    { s with
      dirty := false,
      branchHeads := s.branchHeads.map
        (fun bh => if bh.1 = s.currentBranch then (bh.1, s.nextCommit) else bh),
      nextCommit := s.nextCommit + 1 }
  else s

/-- `get_branch_info` (resources/git_resource.py 259-277): the current branch
and the other branches of the repository. -/
def get_branch_info (s : GitRepoState) : String × List String :=
  (s.currentBranch, (s.branchHeads.map Prod.fst).filter (fun b => b ≠ s.currentBranch))

/-- `switch_git_branch` (resources/git_resource.py 279-285): check out the
requested branch. -/
def switch_git_branch (s : GitRepoState) (branch : String) : GitRepoState :=
  { s with currentBranch := branch }

/-- `switch_git_branch_if_needed` (resources/git_resource.py 287-295): a
no-op when already on the branch; an `InternalError` when the branch does not
exist; otherwise a checkout. -/
def switch_git_branch_if_needed (s : GitRepoState) (branch : String) :
    Except DwsError GitRepoState :=
  let info := get_branch_info s
  if branch = info.1 then Except.ok s
  else if branch ∉ info.2 then
    Except.error (DwsError.internalError
      ("Trying to switch to branch " ++ branch ++ " not in repo"))
  else Except.ok (switch_git_branch s branch)

/-- Modelled from the spec: the VCS boundary primitive `headHash()` as used
by `get_local_head_hash` — the head commit of the currently checked-out
branch. -/
def get_local_head_hash (s : GitRepoState) : Nat :=
  (s.branchHeads.lookup s.currentBranch).getD 0

/-- `GitRepoResource.snapshot` (resources/git_resource.py 155-161): commit
any pending changes ("autocommit ahead of snapshot"), switch to the
resource's branch if needed, and return the head hash as both the comparison
hash and the restore hash, together with the state the repository is left
in. -/
def GitRepoResource.snapshot (s : GitRepoState) (branch : String) :
    Except DwsError ((Nat × Nat) × GitRepoState) :=
  match switch_git_branch_if_needed
          (commit_changes_in_repo s "autocommit ahead of snapshot") branch with
  | Except.error e => Except.error e
  | Except.ok s2 =>
    Except.ok ((get_local_head_hash s2, get_local_head_hash s2), s2)

/-- A repository with uncommitted changes on `master`. -/
def dirty_repo : GitRepoState :=
  { dirty := true, currentBranch := "master", branchHeads := [("master", 0)],
    nextCommit := 1 }

/-- The state `dirty_repo` is left in after `snapshot`. -/
def committed_repo : GitRepoState :=
  { dirty := false, currentBranch := "master", branchHeads := [("master", 1)],
    nextCommit := 2 }

/-- **C4** (counterexample): `snapshot()` is not a pure read: on a git
resource with uncommitted changes it creates a commit, leaving the
version-control state changed. -/
theorem git_snapshot_not_pure :
    GitRepoResource.snapshot dirty_repo "master" =
      Except.ok ((1, 1), committed_repo) ∧
    committed_repo ≠ dirty_repo := by
  refine ⟨by decide, by decide⟩

/-- **C4** (amended): `snapshot()` returns a `(comparisonHash, restoreHash)`
pair but first auto-commits pending changes, so it is not a pure read in
every state; when the repository is clean and already on the resource's
branch, it leaves the resource state unchanged — a pure read returning
`(head, head)`. -/
theorem git_snapshot_pure_when_clean (s : GitRepoState) (branch : String)
    (hclean : s.dirty = false) (hbranch : s.currentBranch = branch) :
    GitRepoResource.snapshot s branch =
      Except.ok ((get_local_head_hash s, get_local_head_hash s), s) := by
  have hc : commit_changes_in_repo s "autocommit ahead of snapshot" = s := by
    simp [commit_changes_in_repo, hclean]
  have hsw : switch_git_branch_if_needed s branch = Except.ok s := by
    simp [switch_git_branch_if_needed, get_branch_info, hbranch]
  simp [GitRepoResource.snapshot, hc, hsw]

/-- A clean repository on `master`. -/
def clean_repo : GitRepoState :=
  { dirty := false, currentBranch := "master", branchHeads := [("master", 7)],
    nextCommit := 8 }

/-- Witness for `git_snapshot_pure_when_clean` on a concrete clean
repository. -/
theorem git_snapshot_pure_when_clean_witness :
    GitRepoResource.snapshot clean_repo "master" =
      Except.ok ((get_local_head_hash clean_repo, get_local_head_hash clean_repo),
                 clean_repo) :=
  git_snapshot_pure_when_clean clean_repo "master" (by decide) (by decide)

/-! ## Results-role operations across resource variants -/

/-- The four resource roles (`ResourceRoles` of the resource layer). -/
inductive ResourceRole where
  | source_data
  | intermediate_data
  | code
  | results
deriving DecidableEq, Repr

/-- `RESULTS_ROLE_NOT_SUPPORTED` (resources/s3/s3_resource.py 33-34): the
error every results-specific S3 entry point raises. -/
def RESULTS_ROLE_NOT_SUPPORTED : DwsError :=
  DwsError.notSupportedError "results not currently supported for S3 resources"

/-- An S3 bucket resource (resources/s3/s3_resource.py): its identity, role,
bucket, the currently selected snapshot (if any), the scratch
`current_snapshot.txt` file, the loaded snapshot filesystem, an abstract
version of the live bucket contents, and the set of snapshot hashes that
have a persisted `.snapshots/<hash>.json.gz` file (locally cached or in the
bucket). -/
structure S3ResourceModel where
  name : String
  role : ResourceRole
  bucket_name : String
  current_snapshot : Option String
  current_snapshot_file : Option String
  snapshot_fs : Option String
  bucket_contents : Nat
  stored_snapshots : List String
deriving DecidableEq, Repr

/-- The results-role guard of the `S3Resource` constructor
(resources/s3/s3_resource.py 51-52): an S3 resource can never be created in
the `results` role. -/
def s3_role_check (role : ResourceRole) : Except DwsError Unit :=
  if role = ResourceRole.results then Except.error RESULTS_ROLE_NOT_SUPPORTED
  else Except.ok ()

/-- `S3Resource.results_move_current_files` (resources/s3/s3_resource.py
113-116): unconditionally raises `RESULTS_ROLE_NOT_SUPPORTED`. -/
def S3ResourceModel.results_move_current_files (_r : S3ResourceModel) :
    Except DwsError Unit :=
  Except.error RESULTS_ROLE_NOT_SUPPORTED

/-- `S3Resource.add_results_file` (resources/s3/s3_resource.py 123-126):
unconditionally raises `RESULTS_ROLE_NOT_SUPPORTED`. -/
def S3ResourceModel.add_results_file (_r : S3ResourceModel) :
    Except DwsError Unit :=
  Except.error RESULTS_ROLE_NOT_SUPPORTED

/-- A git-subdirectory resource that is *not* in the results role
(`GitRepoSubdirResource`, resources/git_resource.py 528-536; its constructor
asserts `role != RESULTS`). -/
structure GitRepoSubdirResourceModel where
  name : String
  role : ResourceRole
  relative_path : String
deriving DecidableEq, Repr

/-- `GitRepoSubdirResource.results_move_current_files`
(resources/git_resource.py 546-548): raises `InternalError`. -/
def GitRepoSubdirResourceModel.results_move_current_files
    (_r : GitRepoSubdirResourceModel) : Except DwsError Unit :=
  Except.error (DwsError.internalError
    "results_move_current_files should not be called for GitRepoSubdirResource")

/-- `GitRepoSubdirResource.add_results_file` (resources/git_resource.py
550-555): raises `InternalError`. -/
def GitRepoSubdirResourceModel.add_results_file
    (_r : GitRepoSubdirResourceModel) : Except DwsError Unit :=
  Except.error (DwsError.internalError
    "add_results_file should not be called for GitRepoSubdirResource")

/-- A full git-repository resource (`GitRepoResource`). -/
structure GitRepoResourceModel where
  name : String
  role : ResourceRole
  branch : String
deriving DecidableEq, Repr

/-- `GitRepoResource.results_move_current_files` (resources/git_resource.py
113-129): performs the move and commit without any check of the resource's
role.  The move itself is abstracted; the embedding records only that the
operation proceeds rather than raising. -/
def GitRepoResourceModel.results_move_current_files
    (_r : GitRepoResourceModel) : Except DwsError Unit :=
  Except.ok ()

/-- `GitRepoResource.add_results_file` (resources/git_resource.py 131-150):
`assert self.role==ResourceRoles.RESULTS`, then copy and commit (abstracted);
for a non-results role the assertion fails. -/
def GitRepoResourceModel.add_results_file (r : GitRepoResourceModel) :
    Except DwsError Unit :=
  if r.role = ResourceRole.results then Except.ok ()
  else Except.error DwsError.assertionError

/-- Recognizer for `InternalError` results, used to state what an operation
does *not* raise without binding the error message. -/
def is_internal_error : Except DwsError Unit → Bool
  | Except.error (DwsError.internalError _) => true
  | _ => false

/-- An S3 resource in the `source-data` role. -/
def s3_source_data : S3ResourceModel :=
  { name := "bucket1", role := ResourceRole.source_data, bucket_name := "b1",
    current_snapshot := none, current_snapshot_file := none,
    snapshot_fs := none, bucket_contents := 0, stored_snapshots := [] }

/-- **C5** (counterexample): an S3 resource whose role is not `results`
fails `results_move_current_files` (and `add_results_file`) with the
user-facing `NotSupportedError`, not with `InternalError`. -/
theorem s3_results_ops_not_internal_error :
    s3_source_data.role ≠ ResourceRole.results ∧
    s3_source_data.results_move_current_files =
      Except.error RESULTS_ROLE_NOT_SUPPORTED ∧
    is_internal_error s3_source_data.results_move_current_files = false ∧
    is_internal_error s3_source_data.add_results_file = false := by
  refine ⟨by decide, by decide, by decide, by decide⟩

/-- **C5** (amended): for roles other than `results`, the git-subdirectory
resource fails both results operations with `InternalError`; an S3 resource
(whose constructor rejects the results role outright) fails them with
`NotSupportedError`; and a full git-repository resource does not gate them on
the role at all — `add_results_file` fails only with an assertion failure and
`results_move_current_files` simply proceeds. -/
theorem results_ops_by_resource_kind
    (sub : GitRepoSubdirResourceModel) (s3 : S3ResourceModel)
    (git : GitRepoResourceModel)
    (hgit : git.role ≠ ResourceRole.results) :
    (∃ m, sub.results_move_current_files =
        Except.error (DwsError.internalError m)) ∧
    (∃ m, sub.add_results_file = Except.error (DwsError.internalError m)) ∧
    (s3.results_move_current_files = Except.error RESULTS_ROLE_NOT_SUPPORTED ∧
     s3.add_results_file = Except.error RESULTS_ROLE_NOT_SUPPORTED) ∧
    (∀ role, s3_role_check role = Except.ok () → role ≠ ResourceRole.results) ∧
    git.add_results_file = Except.error DwsError.assertionError ∧
    git.results_move_current_files = Except.ok () := by
  refine ⟨⟨_, rfl⟩, ⟨_, rfl⟩, ⟨rfl, rfl⟩, ?_, ?_, rfl⟩
  · intro role h
    intro hc
    subst hc
    cases h
  · simp [GitRepoResourceModel.add_results_file, hgit]

/-- A git-subdirectory resource in the `code` role. -/
def subdir_code : GitRepoSubdirResourceModel :=
  { name := "code1", role := ResourceRole.code, relative_path := "code" }

/-- A full git-repository resource in the `code` role. -/
def gitrepo_code : GitRepoResourceModel :=
  { name := "repo1", role := ResourceRole.code, branch := "master" }

/-- Witness for `results_ops_by_resource_kind` on concrete non-results
resources. -/
theorem results_ops_by_resource_kind_witness :
    (∃ m, subdir_code.results_move_current_files =
        Except.error (DwsError.internalError m)) ∧
    (∃ m, subdir_code.add_results_file =
        Except.error (DwsError.internalError m)) ∧
    (s3_source_data.results_move_current_files =
        Except.error RESULTS_ROLE_NOT_SUPPORTED ∧
     s3_source_data.add_results_file =
        Except.error RESULTS_ROLE_NOT_SUPPORTED) ∧
    (∀ role, s3_role_check role = Except.ok () → role ≠ ResourceRole.results) ∧
    gitrepo_code.add_results_file = Except.error DwsError.assertionError ∧
    gitrepo_code.results_move_current_files = Except.ok () :=
  results_ops_by_resource_kind subdir_code s3_source_data gitrepo_code (by decide)

/-! ## S3 snapshot and restore (resources/s3/s3_resource.py 203-225) -/

/-- Modelled from the spec: `snapshot_multiprocess`
(resources/s3/snapshot.py) enumerates and hashes the bucket's objects across
a worker pool and returns the deterministic content hash of the bucket
state. -/
def snapshot_multiprocess (bucket_contents : Nat) : String :=
  "s3hash-" ++ toString bucket_contents

/-- The result of a call to `S3Resource.snapshot`: the returned hash pair,
the state of the resource afterwards, and whether the live bucket was
scanned. -/
structure S3SnapshotResult where
  hashes : String × String
  state : S3ResourceModel
  scanned_bucket : Bool
deriving DecidableEq, Repr

/-- `S3Resource.snapshot` (resources/s3/s3_resource.py 203-212): if a
snapshot is already selected, just return it as both hashes; otherwise scan
the bucket, record the new snapshot in the scratch
`current_snapshot.txt` file and the in-memory state, and return its hash
twice. -/
def S3ResourceModel.snapshot (r : S3ResourceModel) : S3SnapshotResult :=
  match r.current_snapshot with
  | some cs => { hashes := (cs, cs), state := r, scanned_bucket := false }
  | none =>
    let h := snapshot_multiprocess r.bucket_contents
    { hashes := (h, h),
      state := { r with
        current_snapshot := some h,
        current_snapshot_file := some h,
        snapshot_fs := some h },
      scanned_bucket := true }

/-- `S3Resource.restore` together with `_load_snapshot`
(resources/s3/s3_resource.py 99-108, 223-225): load the snapshot listing
(an `InternalError` if no such snapshot file exists locally or in the
bucket), then select the snapshot. -/
def S3ResourceModel.restore (r : S3ResourceModel) (hashval : String) :
    Except DwsError S3ResourceModel :=
  if hashval ∈ r.stored_snapshots then
    Except.ok { r with snapshot_fs := some hashval, current_snapshot := some hashval }
  else
    Except.error (DwsError.internalError
      ("File not found for snapshot " ++ hashval))

/-- **C10**: once a snapshot `h` is selected — in particular after a
successful `restore h` — every `snapshot()` call returns exactly `(h, h)`,
leaves the resource state unchanged and does not scan the bucket, so
`snapshot()` is idempotent and concurrent changes to the bucket contents are
not reflected in the returned hashes. -/
theorem s3_snapshot_idempotent_when_selected
    (r r' : S3ResourceModel) (h : String)
    (hres : r.restore h = Except.ok r') :
    r'.current_snapshot = some h ∧
    (∀ s : S3ResourceModel, s.current_snapshot = some h →
       s.snapshot = { hashes := (h, h), state := s, scanned_bucket := false }) := by
  constructor
  · simp only [S3ResourceModel.restore] at hres
    by_cases hmem : h ∈ r.stored_snapshots
    · rw [if_pos hmem] at hres
      injection hres with hres
      rw [← hres]
    · rw [if_neg hmem] at hres
      cases hres
  · intro s hsel
    simp only [S3ResourceModel.snapshot, hsel]

/-- A bucket resource with snapshot `s1` stored. -/
def s3_with_snapshot : S3ResourceModel :=
  { name := "bucket2", role := ResourceRole.source_data, bucket_name := "b2",
    current_snapshot := none, current_snapshot_file := none,
    snapshot_fs := none, bucket_contents := 5, stored_snapshots := ["s1"] }

/-- The state of `s3_with_snapshot` after `restore "s1"`. -/
def s3_restored : S3ResourceModel :=
  { s3_with_snapshot with
    snapshot_fs := some "s1", current_snapshot := some "s1" }

/-- Witness for `s3_snapshot_idempotent_when_selected`: after restoring
snapshot `s1`, the selected snapshot is `s1` and a subsequent `snapshot()`
on a state with `s1` selected (even with different bucket contents) returns
`(s1, s1)` without scanning. -/
theorem s3_snapshot_idempotent_when_selected_witness :
    s3_restored.current_snapshot = some "s1" ∧
    (∀ s : S3ResourceModel, s.current_snapshot = some "s1" →
       s.snapshot = { hashes := ("s1", "s1"), state := s,
                      scanned_bucket := false }) :=
  s3_snapshot_idempotent_when_selected s3_with_snapshot s3_restored "s1" (by decide)

/-! ## Snapshot manifests and the derived-snapshot path
(commands/restore.py 124-233) -/

/-- One entry of a snapshot manifest: `(resourceName, resourceType,
comparisonHash, restoreHash)`. -/
structure ManifestEntry where
  name : String
  resource_type : String
  comparison_hash : String
  restore_hash : String
deriving DecidableEq, Repr

/-- A snapshot manifest: the ordered per-resource hash entries. -/
abbrev SnapshotManifest := List ManifestEntry

/-- The fresh-hash overlay of `write_revised_snapshot_manifest` for one
entry: entries named in `names_to_leave` get the hashes recorded by
`TakeResourceSnapshot` in `map_of_hashes`; other entries are kept. -/
def overlay_hashes (names_to_leave : List String)
    (fresh : String → String × String) (e : ManifestEntry) : ManifestEntry :=
  if e.name ∈ names_to_leave then
    { e with comparison_hash := (fresh e.name).1,
             restore_hash := (fresh e.name).2 }
  else e

/-- Modelled from the spec: the derived manifest produced during a partial
restore — take the target snapshot's manifest, overlay the freshly computed
hashes for the `toLeave` resources, and append (`AddResourceToSnapshot`,
commands/restore.py 37-52 and 163-173) a new entry for every `toLeave`
resource that is not part of the target snapshot, with its resource type
from the current resource list and its freshly computed hashes. -/
def revised_manifest (M : SnapshotManifest) (names_to_leave : List String)
    (rtype : String → String) (fresh : String → String × String) :
    SnapshotManifest :=
  M.map (overlay_hashes names_to_leave fresh) ++
    ((names_to_leave.filter
        (fun n => n ∉ M.map ManifestEntry.name)).map
      (fun n => { name := n, resource_type := rtype n,
                  comparison_hash := (fresh n).1,
                  restore_hash := (fresh n).2 }))

/-- The hashes the target snapshot recorded for a resource name, if the
resource is part of the snapshot. -/
def recorded_hashes (M : SnapshotManifest) (n : String) :
    Option (String × String) :=
  (M.find? (fun e => e.name == n)).map
    (fun e => (e.comparison_hash, e.restore_hash))

/-- `create_new_hash` of `restore_command` (commands/restore.py 152-173): set
exactly when some resource is left (`names_to_leave` nonempty) and
`--no-new-snapshot` was not given. -/
def create_new_hash_flag (names_to_leave : List String)
    (no_new_snapshot : Bool) : Bool :=
  !names_to_leave.isEmpty && !no_new_snapshot

/-- Which snapshot-store actions `restore_command` puts into the plan
(commands/restore.py 176-195): `WriteRevisedSnapshotFile` and
`AppendSnapshotHistory` are both appended exactly when `create_new_hash`
is set. -/
structure RestorePlanSummary where
  writes_revised_snapshot : Bool
  appends_history_entry : Bool
deriving DecidableEq, Repr

/-- The plan summary built by `restore_command` for given `names_to_leave`
and `--no-new-snapshot` flag. -/
def restore_plan_summary (names_to_leave : List String)
    (no_new_snapshot : Bool) : RestorePlanSummary :=
  { writes_revised_snapshot := create_new_hash_flag names_to_leave no_new_snapshot,
    appends_history_entry := create_new_hash_flag names_to_leave no_new_snapshot }

/-- Modelled from the spec: the canonical byte serialization of a manifest
(the `hashval` of a snapshot is a digest of these bytes; determinism is
required, so serialization is a function of the entries alone). -/
def serialize_manifest (M : SnapshotManifest) : String :=
  match M with
  | [] => ""
  | e :: rest =>
    e.name ++ "," ++ e.resource_type ++ "," ++ e.comparison_hash ++ "," ++
      e.restore_hash ++ ";" ++ serialize_manifest rest

theorem list_map_eq_self {α : Type} (l : List α) (f : α → α) :
    l.map f = l ↔ ∀ x ∈ l, f x = x := by
  induction l with
  | nil => simp
  | cons a l ih =>
    simp only [List.map_cons, List.cons.injEq, List.mem_cons]
    constructor
    · rintro ⟨h1, h2⟩ x hx
      rcases hx with hx | hx
      · subst hx; exact h1
      · exact (ih.mp h2) x hx
    · intro h
      exact ⟨h a (Or.inl rfl), ih.mpr (fun x hx => h x (Or.inr hx))⟩

theorem find?_name_eq_self (M : SnapshotManifest)
    (hnodup : (M.map ManifestEntry.name).Nodup) (e : ManifestEntry)
    (he : e ∈ M) : M.find? (fun x => x.name == e.name) = some e := by
  induction M with
  | nil => cases he
  | cons e0 M ih =>
    rw [List.map_cons, List.nodup_cons] at hnodup
    obtain ⟨hn0, hnodup'⟩ := hnodup
    rcases List.mem_cons.mp he with he1 | he1
    · subst he1
      simp [List.find?]
    · have hne : e0.name ≠ e.name := by
        intro hc
        exact hn0 (hc ▸ List.mem_map_of_mem ManifestEntry.name he1)
      simp only [List.find?]
      rw [show (e0.name == e.name) = false from beq_eq_false_iff_ne.mpr hne]
      exact ih hnodup' he1

theorem mem_names_of_recorded_eq_some (M : SnapshotManifest) (n : String)
    (v : String × String) (h : recorded_hashes M n = some v) :
    n ∈ M.map ManifestEntry.name := by
  rw [recorded_hashes] at h
  cases hf : M.find? (fun e => e.name == n) with
  | none => rw [hf] at h; cases h
  | some e =>
    have he := List.mem_of_find?_eq_some hf
    have hp : e.name = n := by simpa using List.find?_some hf
    exact hp ▸ List.mem_map_of_mem ManifestEntry.name he

/-- The derived manifest equals the target manifest exactly when every
`toLeave` resource is already in the target snapshot with hashes equal to its
freshly computed ones. -/
theorem revised_manifest_eq_iff (M : SnapshotManifest) (L : List String)
    (rtype : String → String) (fresh : String → String × String)
    (hnodup : (M.map ManifestEntry.name).Nodup) :
    revised_manifest M L rtype fresh = M ↔
      ∀ n ∈ L, recorded_hashes M n = some (fresh n) := by
  constructor
  · intro h
    have hlen : M.length + ((L.filter
        (fun n => n ∉ M.map ManifestEntry.name)).map
          (fun n => ({ name := n, resource_type := rtype n,
                       comparison_hash := (fresh n).1,
                       restore_hash := (fresh n).2 } : ManifestEntry))).length
        = M.length := by
      have := congrArg List.length h
      simpa [revised_manifest] using this
    have happ_nil : ((L.filter (fun n => n ∉ M.map ManifestEntry.name)).map
        (fun n => ({ name := n, resource_type := rtype n,
                     comparison_hash := (fresh n).1,
                     restore_hash := (fresh n).2 } : ManifestEntry))) = [] := by
      have : ((L.filter (fun n => n ∉ M.map ManifestEntry.name)).map
          (fun n => ({ name := n, resource_type := rtype n,
                       comparison_hash := (fresh n).1,
                       restore_hash := (fresh n).2 } : ManifestEntry))).length = 0 := by
        omega
      exact List.length_eq_zero.mp this
    have hfilter : L.filter (fun n => n ∉ M.map ManifestEntry.name) = [] :=
      List.map_eq_nil_iff.mp happ_nil
    have hmap : M.map (overlay_hashes L fresh) = M := by
      rw [revised_manifest, happ_nil, List.append_nil] at h
      exact h
    have hpoint := (list_map_eq_self M (overlay_hashes L fresh)).mp hmap
    intro n hn
    have hmemnames : n ∈ M.map ManifestEntry.name := by
      by_contra hnot
      have : n ∈ L.filter (fun n => n ∉ M.map ManifestEntry.name) :=
        List.mem_filter.mpr ⟨hn, by simpa using hnot⟩
      rw [hfilter] at this
      cases this
    obtain ⟨e, he, hname⟩ := List.mem_map.mp hmemnames
    subst hname
    have hfind := find?_name_eq_self M hnodup e he
    have hov : overlay_hashes L fresh e = e := hpoint e he
    rw [overlay_hashes, if_pos hn] at hov
    have h1 : (fresh e.name).1 = e.comparison_hash :=
      congrArg ManifestEntry.comparison_hash hov
    have h2 : (fresh e.name).2 = e.restore_hash :=
      congrArg ManifestEntry.restore_hash hov
    rw [recorded_hashes, hfind, Option.map_some']
    congr 1
    rw [← h1, ← h2]
  · intro h
    have hfilter : L.filter (fun n => n ∉ M.map ManifestEntry.name) = [] := by
      rw [List.filter_eq_nil_iff]
      intro n hn
      simpa using mem_names_of_recorded_eq_some M n (fresh n) (h n hn)
    have hmap : M.map (overlay_hashes L fresh) = M := by
      rw [list_map_eq_self]
      intro e he
      by_cases hL : e.name ∈ L
      · have hfind := find?_name_eq_self M hnodup e he
        have hrec := h e.name hL
        rw [recorded_hashes, hfind, Option.map_some'] at hrec
        have hpair : (e.comparison_hash, e.restore_hash) = fresh e.name :=
          Option.some.inj hrec
        rw [overlay_hashes, if_pos hL, ← hpair]
      · rw [overlay_hashes, if_neg hL]
    rw [revised_manifest, hfilter, List.map_nil, List.append_nil, hmap]

/-- A target-manifest entry for resource `B`. -/
def entry_B : ManifestEntry :=
  { name := "B", resource_type := "git", comparison_hash := "hB",
    restore_hash := "hB" }

/-- **C3** (counterexample): with `names_to_leave = ["B"]` (say via
`--leave B`) where `B` is in the target snapshot and unchanged, no resource
set or hash differs from the original target — the derived manifest equals
the target's — yet `restore_command` still sets `create_new_hash`, writes
the (identical) snapshot file and appends a history entry, so the restore is
not a pure replay. -/
theorem restore_replay_still_appends_history :
    revised_manifest [entry_B] ["B"] (fun _ => "git")
        (fun _ => ("hB", "hB")) = [entry_B] ∧
    (∀ n ∈ ["B"], recorded_hashes [entry_B] n =
        some (("hB" : String), ("hB" : String))) ∧
    restore_plan_summary ["B"] false =
      { writes_revised_snapshot := true, appends_history_entry := true } := by
  refine ⟨by decide, by decide, by decide⟩

/-- **C3** (amended): without `--no-new-snapshot`, a snapshot with a *fresh*
`hashval` (together with its history entry) arises exactly when some
`toLeave` resource's freshly computed hashes differ from what the target
snapshot recorded or the resource was absent from the target snapshot; and
when nothing differs the derived manifest — and hence its hash and the bytes
of the written snapshot file — equals the original (though the
history-append and file-write actions still run whenever `toLeave` is
nonempty). -/
theorem restore_new_snapshot_iff
    (M : SnapshotManifest) (L : List String) (rtype : String → String)
    (fresh : String → String × String) (hashFn : SnapshotManifest → String)
    (hnodup : (M.map ManifestEntry.name).Nodup)
    (hcf : hashFn (revised_manifest M L rtype fresh) = hashFn M →
           revised_manifest M L rtype fresh = M) :
    (((restore_plan_summary L false).appends_history_entry = true ∧
        hashFn (revised_manifest M L rtype fresh) ≠ hashFn M) ↔
      ∃ n ∈ L, recorded_hashes M n ≠ some (fresh n)) ∧
    ((∀ n ∈ L, recorded_hashes M n = some (fresh n)) →
      revised_manifest M L rtype fresh = M ∧
      hashFn (revised_manifest M L rtype fresh) = hashFn M) := by
  have hiff := revised_manifest_eq_iff M L rtype fresh hnodup
  constructor
  · constructor
    · rintro ⟨_, hne⟩
      by_contra hnot
      push_neg at hnot
      exact hne (congrArg hashFn (hiff.mpr hnot))
    · rintro ⟨n, hn, hne⟩
      constructor
      · have hL : L.isEmpty = false := by
          cases L with
          | nil => cases hn
          | cons a l => rfl
        simp [restore_plan_summary, create_new_hash_flag, hL]
      · intro hc
        exact hne (hiff.mp (hcf hc) n hn)
  · intro hall
    have heq := hiff.mpr hall
    exact ⟨heq, congrArg hashFn heq⟩

/-- Witness for `restore_new_snapshot_iff`: leaving resource `B` whose fresh
hashes `hB2` differ from the recorded `hB` makes the plan append a history
entry and produce a manifest whose canonical serialization (and hence
hashval) differs from the target's. -/
theorem restore_new_snapshot_iff_witness :
    (restore_plan_summary ["B"] false).appends_history_entry = true ∧
    serialize_manifest (revised_manifest [entry_B] ["B"] (fun _ => "git")
        (fun _ => ("hB2", "hB2"))) ≠ serialize_manifest [entry_B] :=
  (restore_new_snapshot_iff [entry_B] ["B"] (fun _ => "git")
      (fun _ => ("hB2", "hB2")) serialize_manifest (by decide) (by decide)).1.mpr
    ⟨"B", by decide, by decide⟩

/-! ## Persistence of the original snapshot during a derived-snapshot write
(commands/restore.py 54-75, 176-199) -/

/-- The files of the metadata store touched by a restore:
`snapshots/snapshot-<hash>.json`, `snapshot_metadata/<hash>_md.json`,
`snapshots/snapshot_history.json` and `resources.json`. -/
inductive MetadataPath where
  | snapshotManifestFile (hashval : String)
  | snapshotMetadataFile (hashval : String)
  | snapshotHistoryFile
  | resourcesFile
deriving DecidableEq, Repr

/-- Write (create or overwrite whole) a file of the metadata store. -/
def write_file (store : MetadataPath → Option String) (p : MetadataPath)
    (content : String) : MetadataPath → Option String :=
  fun q => if q = p then some content else store q

/-- The writes performed when `create_new_hash` is set
(commands/restore.py 176-199): `WriteRevisedSnapshotFile` serializes the
revised manifest through `actions.write_and_hash_file` (modelled from the
spec) into `snapshot-<HASHVAL>.json` where `HASHVAL` is the digest of the
written bytes, `AppendSnapshotHistory` rewrites the history file, and
`WriteRevisedResourceFile` rewrites `resources.json` when the resource set
changed. -/
def apply_revised_snapshot_writes (store : MetadataPath → Option String)
    (revised : SnapshotManifest) (hashFn : SnapshotManifest → String)
    (history_content resources_content : String)
    (need_to_write_resources : Bool) : MetadataPath → Option String :=
  let store1 := write_file store
    (MetadataPath.snapshotManifestFile (hashFn revised))
    (serialize_manifest revised)
  let store2 := write_file store1 MetadataPath.snapshotHistoryFile
    history_content
  if need_to_write_resources then
    write_file store2 MetadataPath.resourcesFile resources_content
  else store2

/-- **C6**: whenever the reconciler produces a genuinely derived snapshot
(`revised ≠ M`), the revised manifest is written under its own hash-named
file — a name different from the original's — and the original target
snapshot's persisted manifest file and metadata file are byte-identical
afterwards. -/
theorem revised_snapshot_preserves_original
    (store : MetadataPath → Option String) (M revised : SnapshotManifest)
    (hashFn : SnapshotManifest → String)
    (history_content resources_content : String)
    (need_to_write_resources : Bool)
    (hcf : hashFn revised = hashFn M → revised = M)
    (hderived : revised ≠ M) :
    hashFn revised ≠ hashFn M ∧
    apply_revised_snapshot_writes store revised hashFn history_content
        resources_content need_to_write_resources
        (MetadataPath.snapshotManifestFile (hashFn M)) =
      store (MetadataPath.snapshotManifestFile (hashFn M)) ∧
    apply_revised_snapshot_writes store revised hashFn history_content
        resources_content need_to_write_resources
        (MetadataPath.snapshotMetadataFile (hashFn M)) =
      store (MetadataPath.snapshotMetadataFile (hashFn M)) := by
  have hne : hashFn revised ≠ hashFn M := fun h => hderived (hcf h)
  refine ⟨hne, ?_, ?_⟩
  · cases need_to_write_resources <;>
      simp [apply_revised_snapshot_writes, write_file, Ne.symm hne]
  · cases need_to_write_resources <;>
      simp [apply_revised_snapshot_writes, write_file]

/-- The revised entry for resource `B` with changed hashes. -/
def entry_B2 : ManifestEntry :=
  { name := "B", resource_type := "git", comparison_hash := "hB2",
    restore_hash := "hB2" }

/-- Witness for `revised_snapshot_preserves_original` on a concrete derived
manifest, with the canonical serialization standing in for the digest. -/
theorem revised_snapshot_preserves_original_witness :
    serialize_manifest [entry_B2] ≠ serialize_manifest [entry_B] ∧
    apply_revised_snapshot_writes (fun _ => none) [entry_B2]
        serialize_manifest "history" "resources" true
        (MetadataPath.snapshotManifestFile (serialize_manifest [entry_B])) =
      (fun _ => (none : Option String))
        (MetadataPath.snapshotManifestFile (serialize_manifest [entry_B])) ∧
    apply_revised_snapshot_writes (fun _ => none) [entry_B2]
        serialize_manifest "history" "resources" true
        (MetadataPath.snapshotMetadataFile (serialize_manifest [entry_B])) =
      (fun _ => (none : Option String))
        (MetadataPath.snapshotMetadataFile (serialize_manifest [entry_B])) :=
  revised_snapshot_preserves_original (fun _ => none) [entry_B] [entry_B2]
    serialize_manifest "history" "resources" true (by decide) (by decide)
